import Mathlib

/-!
Verification of the game-state core of the `tytris-py` repository
(`src/components/tetris-game.tsx`).

The component's state hooks become the fields of `GameState`; each event
handler (`startGame`, `movePiece`, `rotatePiece`, `dropPiece`,
`dropPieceToBottom`, `updateBoard`) becomes a pure function on `GameState`.
One keyboard/timer event corresponds to one application of the matching
function to the state of the current render.  Random piece draws
(`getRandomPiece`) are passed in explicitly as parameters.

The helper module `@/lib/tetris-utils` (`createEmptyBoard`, `checkCollision`,
`TETROMINOS`, `getRandomPiece`) is not part of the repository snapshot, so
those definitions are modelled from the specification; everything else is a
direct translation of the component source.

JavaScript numbers are modelled as `Int`/`Nat`; the drop interval, which the
source computes with floating-point arithmetic (`1000 * Math.pow(0.8, n)`),
is modelled by the exact rational `1000 * (4/5)^n`.
-/

set_option autoImplicit false

namespace Tytris

/-- A merged board cell: the source writes `{ color, merged: true }`. -/
structure CellData where
  color : String
  merged : Bool
deriving DecidableEq

/-- A board cell is `null` (empty) or occupied cell data. -/
abbrev Cell := Option CellData

abbrev BoardRow := List Cell

/-- The board: a list of rows, row 0 at the top (10 × 20 in play). -/
abbrev Board := List BoardRow

/-- A rotation mask: rows of numbers, a cell is occupied iff its entry is
nonzero (the source tests `shape[y][x] !== 0`). -/
abbrev Shape := List (List Nat)

/-- A tetromino: a list of rotation masks and a color, as in the
`TETROMINOS` table of `@/lib/tetris-utils`. -/
structure Tetromino where
  shape : List Shape
  color : String
deriving DecidableEq

/-- The rotation mask lookup `TETROMINOS[p].shape[rot]`. -/
def shapeAt (t : Tetromino) (rot : Nat) : Shape :=
  t.shape.getD rot []

/-- The `position` state: the active piece's anchor in board coordinates. -/
structure Position where
  x : Int
  y : Int
deriving DecidableEq

/-- One all-empty board row (10 `null` cells). -/
def emptyRow : BoardRow := List.replicate 10 none

/-- Modelled from the spec: `createEmptyBoard` from `@/lib/tetris-utils`
(not in the repository snapshot) — "resets board to all-empty", a 10 × 20
grid of empty cells. -/
def createEmptyBoard : Board := List.replicate 20 emptyRow

/-- Read the board cell at row `y`, column `x` (empty when out of range). -/
def cellAt (b : Board) (y x : Nat) : Cell :=
  (b.getD y []).getD x none

/-- Modelled from the spec: `checkCollision` from `@/lib/tetris-utils`
(not in the repository snapshot).  "A candidate placement collides iff any
occupied cell of the piece's rotation mask maps to a board cell that is
either outside the horizontal bounds [0,10), at or beyond the bottom bound
(y ≥ 20), or already occupied on the board"; cells mapping to negative board
rows are exempt only from the occupancy check. -/
def checkCollision (board : Board) (piece : Tetromino) (posX posY : Int)
    (rot : Nat) : Bool :=
  (List.range (shapeAt piece rot).length).any fun sy =>
    (List.range ((shapeAt piece rot).getD sy []).length).any fun sx =>
      decide (((shapeAt piece rot).getD sy []).getD sx 0 ≠ 0) &&
        (decide (posX + sx < 0) || decide (10 ≤ posX + sx) ||
         decide (20 ≤ posY + sy) ||
           (decide (0 ≤ posY + sy) &&
             (cellAt board (posY + sy).toNat (posX + sx).toNat).isSome))

/-- Clockwise rotation of a square mask, used to precompute the four
rotation states of each tetromino. -/
def rotCW (m : Shape) : Shape :=
  (List.range m.length).map fun i =>
    (List.range m.length).map fun j =>
      (m.getD (m.length - 1 - j) []).getD i 0

/-- Build a tetromino from its rotation-0 mask: the four precomputed
rotation states are successive clockwise rotations. -/
def mkTetromino (m : Shape) (c : String) : Tetromino :=
  ⟨[m, rotCW m, rotCW (rotCW m), rotCW (rotCW (rotCW m))], c⟩

/-- Modelled from the spec: the `TETROMINOS` table of `@/lib/tetris-utils`
(not in the repository snapshot) — "7 standard tetromino shapes", each with
"an identifying tag, a color, and up to 4 precomputed rotation states, each
rotation state being a small fixed-size 2D occupancy mask". -/
def pieceI : Tetromino := mkTetromino [[0,0,0,0],[1,1,1,1],[0,0,0,0],[0,0,0,0]] "cyan"

def pieceJ : Tetromino := mkTetromino [[1,0,0],[1,1,1],[0,0,0]] "blue"

def pieceL : Tetromino := mkTetromino [[0,0,1],[1,1,1],[0,0,0]] "orange"

def pieceO : Tetromino := mkTetromino [[1,1],[1,1]] "yellow"

def pieceS : Tetromino := mkTetromino [[0,1,1],[1,1,0],[0,0,0]] "green"

def pieceT : Tetromino := mkTetromino [[0,1,0],[1,1,1],[0,0,0]] "purple"

def pieceZ : Tetromino := mkTetromino [[1,1,0],[0,1,1],[0,0,0]] "red"

/-- The seven piece kinds `getRandomPiece` draws from. -/
def TETROMINOS : List Tetromino :=
  [pieceI, pieceJ, pieceL, pieceO, pieceS, pieceT, pieceZ]

/-- Write one board cell (`newBoard[y][x] = v`).  A write at a negative or
too-large index is a no-op: in the source a negative JavaScript array index
is a named property invisible to index-based iteration, and in-play writes
are proved in-bounds anyway. -/
def setCell (b : Board) (y x : Int) (v : Cell) : Board :=
  if 0 ≤ y ∧ 0 ≤ x then
    b.set y.toNat ((b.getD y.toNat []).set x.toNat v)
  else b

/-- The merge loop of `updateBoard` (source lines 145–155): every occupied
cell of the active piece's current rotation mask is written into the board
at its anchor; only cells with board row ≥ 0 are written. -/
def mergePiece (board : Board) (piece : Tetromino) (posX posY : Int)
    (rot : Nat) : Board :=
  (List.range (shapeAt piece rot).length).foldl
    (fun acc sy =>
      (List.range ((shapeAt piece rot).getD sy []).length).foldl
        (fun acc2 sx =>
          if ((shapeAt piece rot).getD sy []).getD sx 0 ≠ 0 then
            (if 0 ≤ posY + (sy : Int) then
              setCell acc2 (posY + sy) (posX + sx) (some ⟨piece.color, true⟩)
             else acc2)
          else acc2)
        acc)
    board

/-- The row-completeness test `newBoard[y].every(cell => cell !== null)`. -/
def rowComplete (r : BoardRow) : Bool :=
  r.all fun c => c.isSome

/-- The clear-scan loop of `updateBoard` (source lines 157–167): scan row
indices 0..19; a complete row is removed, a fresh empty row is unshifted at
the top, the count is incremented and the same index is re-examined
(`y -= 1` before the loop's `y++`).  The fuel argument bounds the number of
iterations; `41` exceeds the loop's maximal iteration count on 20-row
boards, where each step either advances `y` or removes one of at most 20
complete rows. -/
def clearLoop : Nat → Board → Nat → Nat → Board × Nat
  | 0, b, _, cleared => (b, cleared)
  | fuel + 1, b, y, cleared =>
    if y < 20 then
      if rowComplete (b.getD y []) then
        clearLoop fuel (emptyRow :: b.eraseIdx y) y (cleared + 1)
      else
        clearLoop fuel b (y + 1) cleared
    else (b, cleared)

/-- Step 2 of the lock sequence: the full clear scan, returning the new
board and the number of cleared rows. -/
def clearScan (b : Board) : Board × Nat := clearLoop 41 b 0 0

/-- The scoring table lookup `[0, 40, 100, 300, 1200][clearedRows]`
(source line 178).  The source
indexes the table without a clamp; in play `clearedRows ≤ 4`, where this
table lookup agrees with it. -/
def basePoints (n : Nat) : Nat :=
  [0, 40, 100, 300, 1200].getD n 0

/-- The component's state hooks gathered into one session state. -/
structure GameState where
  gameStarted : Bool
  gameOver : Bool
  score : Nat
  rows : Nat
  level : Nat
  dropTime : Option ℚ
  board : Board
  currentPiece : Option Tetromino
  nextPiece : Option Tetromino
  position : Position
  rotation : Nat
deriving DecidableEq

/-- The spawn anchor `Math.floor((10 - TETROMINOS[p].shape[0].length) / 2)`
(source lines 77
and 203–205): the spawn anchor x, computed from the length of the
rotation-0 mask. -/
def spawnX (p : Tetromino) : Int :=
  Int.fdiv (10 - ((shapeAt p 0).length : Int)) 2

/-- The width (first-row length) of a piece's rotation-0 mask. -/
def rot0Width (p : Tetromino) : Nat :=
  ((shapeAt p 0).getD 0 []).length

/-- The lock sequence `updateBoard` (source lines 135–218): merge the
active piece, run the clear scan, update score / rows / level / drop
interval, install the new board, promote the on-deck piece (drawing `draw`
as the new on-deck piece), reset position and rotation, and set game over
when the fresh spawn collides. -/
def updateBoard (draw : Tetromino) (s : GameState) : GameState :=
  match s.currentPiece, s.nextPiece with
  | some cur, some next =>
    let merged := mergePiece s.board cur s.position.x s.position.y s.rotation
    let scanned := clearScan merged
    let newBoard := scanned.1
    let clearedRows := scanned.2
    let points := basePoints clearedRows * (s.level + 1)
    let newRows := s.rows + clearedRows
    let leveledUp := 0 < clearedRows ∧ s.rows / 10 < newRows / 10
    let s' : GameState :=
      { s with
        board := newBoard
        score := if 0 < clearedRows then s.score + points else s.score
        rows := if 0 < clearedRows then newRows else s.rows
        level := if leveledUp then s.level + 1 else s.level
        dropTime := if leveledUp then some (1000 * (4/5 : ℚ) ^ (newRows / 10))
                    else s.dropTime
        currentPiece := some next
        nextPiece := some draw
        position := ⟨spawnX next, 0⟩
        rotation := 0 }
    if checkCollision newBoard next (spawnX next) 0 0 then
      { s' with gameOver := true, dropTime := none }
    else s'
  | _, _ => s

/-- Handler `startGame` (source lines 60–85): reset everything, draw the first two
pieces, center the active piece at the top. -/
def startGame (p1 p2 : Tetromino) : GameState :=
  { gameStarted := true
    gameOver := false
    score := 0
    rows := 0
    level := 0
    dropTime := some 1000
    board := createEmptyBoard
    currentPiece := some p1
    nextPiece := some p2
    position := ⟨spawnX p1, 0⟩
    rotation := 0 }

/-- Handler `movePiece` (source lines 88–96): shift the anchor x by `dir` unless
the game is over, not started, there is no piece, or the shifted placement
collides. -/
def movePiece (dir : Int) (s : GameState) : GameState :=
  match s.currentPiece with
  | some cur =>
    if s.gameOver = false ∧ s.gameStarted = true ∧
        checkCollision s.board cur (s.position.x + dir) s.position.y
          s.rotation = false then
      { s with position := ⟨s.position.x + dir, s.position.y⟩ }
    else s
  | none => s

/-- Handler `rotatePiece` (source lines 99–107): advance the rotation index mod 4
unless the rotated placement collides. -/
def rotatePiece (s : GameState) : GameState :=
  match s.currentPiece with
  | some cur =>
    if s.gameOver = false ∧ s.gameStarted = true then
      (let newRotation := (s.rotation + 1) % 4
       if checkCollision s.board cur s.position.x s.position.y
           newRotation = false then
         { s with rotation := newRotation }
       else s)
    else s
  | none => s

/-- Handler `dropPiece` (source lines 110–119): move the piece down one row, or run
the lock sequence when the row below collides. -/
def dropPiece (draw : Tetromino) (s : GameState) : GameState :=
  match s.currentPiece with
  | some cur =>
    if s.gameOver = false ∧ s.gameStarted = true then
      (if checkCollision s.board cur s.position.x (s.position.y + 1)
          s.rotation = false then
        { s with position := ⟨s.position.x, s.position.y + 1⟩ }
      else updateBoard draw s)
    else s
  | none => s

/-- The auto-drop timer (source lines 268–270) invokes `dropPiece`. -/
def tick (draw : Tetromino) (s : GameState) : GameState :=
  dropPiece draw s

/-- The `while` loop of `dropPieceToBottom` (source lines 124–127):
advance `newY` while the placement one row below does not collide.  The
fuel bounds the iteration count; `40` exceeds the number of iterations for
any anchor `y ≥ 0` and a mask with at least one occupied cell. -/
def dropYLoop : Nat → Board → Tetromino → Int → Int → Nat → Int
  | 0, _, _, _, y, _ => y
  | fuel + 1, b, p, x, y, rot =>
    if checkCollision b p x (y + 1) rot = false then
      dropYLoop fuel b p x (y + 1) rot
    else y

/-- Handler `dropPieceToBottom` (source lines 122–132).  The source computes `newY`
with the while loop and calls `setPosition(newY)` followed by
`updateBoard()`; `updateBoard` is the `useCallback` closure of the current
render, whose captured `position` is the pre-drop anchor — the queued
`setPosition(newY)` affects neither `updateBoard`'s reads nor the final
state, since `updateBoard` overwrites `position` with the spawn anchor.
The merge therefore runs at the pre-drop anchor. -/
def dropPieceToBottom (draw : Tetromino) (s : GameState) : GameState :=
  match s.currentPiece with
  | some cur =>
    if s.gameOver = false ∧ s.gameStarted = true then
      (let _newY := dropYLoop 40 s.board cur s.position.x s.position.y
        s.rotation
       updateBoard draw s)
    else s
  | none => s

/-- Every rotation mask of the piece has at most 4 rows. -/
def validShapes (p : Tetromino) : Bool :=
  p.shape.all fun m => decide (m.length ≤ 4)

/-- The board after merge and clear scan. -/
def lockBoard (s : GameState) (cur : Tetromino) : Board :=
  (clearScan (mergePiece s.board cur s.position.x s.position.y s.rotation)).1

/-- The number of rows cleared by the lock sequence. -/
def lockCleared (s : GameState) (cur : Tetromino) : Nat :=
  (clearScan (mergePiece s.board cur s.position.x s.position.y s.rotation)).2

/-- The score after the lock sequence. -/
def lockScore (s : GameState) (cur : Tetromino) : Nat :=
  if 0 < lockCleared s cur then
    s.score + basePoints (lockCleared s cur) * (s.level + 1)
  else s.score

/-- The cumulative row count after the lock sequence. -/
def lockRows (s : GameState) (cur : Tetromino) : Nat :=
  if 0 < lockCleared s cur then s.rows + lockCleared s cur else s.rows

/-- The level after the lock sequence. -/
def lockLevel (s : GameState) (cur : Tetromino) : Nat :=
  if 0 < lockCleared s cur ∧
      s.rows / 10 < (s.rows + lockCleared s cur) / 10 then
    s.level + 1
  else s.level

/-- The drop interval after the lock sequence (before the game-over check). -/
def lockDropTime (s : GameState) (cur : Tetromino) : Option ℚ :=
  if 0 < lockCleared s cur ∧
      s.rows / 10 < (s.rows + lockCleared s cur) / 10 then
    some (1000 * (4/5 : ℚ) ^ ((s.rows + lockCleared s cur) / 10))
  else s.dropTime

/-- Function `updateBoard` with the match and lets resolved: all fields written out,
split on the spawn-collision check. -/
def lockStep (draw : Tetromino) (s : GameState) (cur next : Tetromino) :
    GameState :=
  if checkCollision (lockBoard s cur) next (spawnX next) 0 0 then
    { gameStarted := s.gameStarted
      gameOver := true
      score := lockScore s cur
      rows := lockRows s cur
      level := lockLevel s cur
      dropTime := none
      board := lockBoard s cur
      currentPiece := some next
      nextPiece := some draw
      position := ⟨spawnX next, 0⟩
      rotation := 0 }
  else
    { gameStarted := s.gameStarted
      gameOver := s.gameOver
      score := lockScore s cur
      rows := lockRows s cur
      level := lockLevel s cur
      dropTime := lockDropTime s cur
      board := lockBoard s cur
      currentPiece := some next
      nextPiece := some draw
      position := ⟨spawnX next, 0⟩
      rotation := 0 }

/-- Session states reachable from `startGame` by the event handlers, with
all random draws ranging over the seven piece kinds. -/
inductive Reachable : GameState → Prop
  | start (p1 p2 : Tetromino) (h1 : p1 ∈ TETROMINOS) (h2 : p2 ∈ TETROMINOS) :
      Reachable (startGame p1 p2)
  | move (dir : Int) (s : GameState) (hs : Reachable s) :
      Reachable (movePiece dir s)
  | rotate (s : GameState) (hs : Reachable s) :
      Reachable (rotatePiece s)
  | drop (d : Tetromino) (s : GameState) (hd : d ∈ TETROMINOS)
      (hs : Reachable s) : Reachable (dropPiece d s)
  | hard (d : Tetromino) (s : GameState) (hd : d ∈ TETROMINOS)
      (hs : Reachable s) : Reachable (dropPieceToBottom d s)

/-- The inductive session invariant: holds after `startGame` and is
preserved by every event handler. -/
structure Inv (s : GameState) : Prop where
  started : s.gameStarted = true
  level_eq : s.level = s.rows / 10
  blen : s.board.length = 20
  brows : ∀ r ∈ s.board, r.length = 10
  nocomp : ∀ r ∈ s.board, rowComplete r = false
  curMem : ∃ p ∈ TETROMINOS, s.currentPiece = some p
  nxtMem : ∃ p ∈ TETROMINOS, s.nextPiece = some p
  dropRun : s.gameOver = false → s.dropTime = some (1000 * (4/5 : ℚ) ^ s.level)
  dropOver : s.gameOver = true → s.dropTime = none


/-- A demonstration row with only column 0 empty, used in witnesses. -/
def demoAlmostRow : BoardRow := none :: List.replicate 9 (some ⟨"gray", true⟩)

/-- A demonstration board whose bottom row misses exactly one cell. -/
def demoBoard19 : Board := List.replicate 19 emptyRow ++ [demoAlmostRow]

/-- A running session whose active I piece (rotation 1, anchor (-2, 16))
fills the missing cell of `demoBoard19` when locked. -/
def demoLockState : GameState :=
  { startGame pieceI pieceT with
    board := demoBoard19
    position := ⟨-2, 16⟩
    rotation := 1 }

/-- A session state with the game-over flag set. -/
def demoOverState : GameState :=
  { startGame pieceI pieceJ with gameOver := true }

/-! ### Lemmas -/

/-! ### Helper lemmas -/

theorem foldl_invariant {α β : Type} (P : α → Prop) (f : α → β → α)
    (l : List β) (init : α) (h0 : P init)
    (hstep : ∀ acc b, b ∈ l → P acc → P (f acc b)) :
    P (l.foldl f init) := by
  induction l generalizing init with
  | nil => exact h0
  | cons a l ih =>
    exact ih (f init a) (hstep init a (List.mem_cons_self a l) h0)
      fun acc b hb hacc => hstep acc b (List.mem_cons_of_mem a hb) hacc

theorem length_setCell (b : Board) (y x : Int) (v : Cell) :
    (setCell b y x v).length = b.length := by
  unfold setCell
  split <;> simp

theorem getD_setCell_ne (b : Board) (y x : Int) (v : Cell) (i : Nat)
    (h : (i : Int) ≠ y) :
    (setCell b y x v).getD i [] = b.getD i [] := by
  unfold setCell
  split
  · next hx =>
    have : y.toNat ≠ i := by omega
    simp [List.getElem?_set_ne this]
  · rfl

theorem rows_setCell (b : Board) (y x : Int) (v : Cell)
    (hb : ∀ r ∈ b, r.length = 10) :
    ∀ r ∈ setCell b y x v, r.length = 10 := by
  unfold setCell
  split
  · by_cases hlt : y.toNat < b.length
    · intro r hr
      rcases List.mem_or_eq_of_mem_set hr with hr' | rfl
      · exact hb r hr'
      · rw [List.length_set]
        have hrow : b.getD y.toNat [] = b[y.toNat] := by
          simp [List.getElem?_eq_getElem hlt]
        rw [hrow]
        exact hb _ (List.getElem_mem hlt)
    · rw [List.set_eq_of_length_le (by omega)]
      exact hb
  · exact hb

theorem length_mergePiece (b : Board) (p : Tetromino) (x y : Int) (rot : Nat) :
    (mergePiece b p x y rot).length = b.length := by
  unfold mergePiece
  exact foldl_invariant (fun acc : Board => acc.length = b.length) _ _ _ rfl
    fun (acc : Board) (sy : Nat) _ hacc =>
      foldl_invariant (fun acc2 : Board => acc2.length = b.length) _ _ _ hacc
        fun (acc2 : Board) (sx : Nat) _ hacc2 => by
          split
          · split
            · rw [length_setCell]; exact hacc2
            · exact hacc2
          · exact hacc2

theorem rows_mergePiece (b : Board) (p : Tetromino) (x y : Int) (rot : Nat)
    (hb : ∀ r ∈ b, r.length = 10) :
    ∀ r ∈ mergePiece b p x y rot, r.length = 10 := by
  unfold mergePiece
  exact foldl_invariant (fun acc : Board => ∀ r ∈ acc, r.length = 10) _ _ _ hb
    fun (acc : Board) (sy : Nat) _ hacc =>
      foldl_invariant (fun acc2 : Board => ∀ r ∈ acc2, r.length = 10) _ _ _
        hacc fun (acc2 : Board) (sx : Nat) _ hacc2 => by
          split
          · split
            · exact rows_setCell _ _ _ _ hacc2
            · exact hacc2
          · exact hacc2

theorem getD_mergePiece_outside (b : Board) (p : Tetromino) (x y : Int)
    (rot : Nat) (i : Nat)
    (hout : (i : Int) < y ∨ y + (shapeAt p rot).length ≤ (i : Int)) :
    (mergePiece b p x y rot).getD i [] = b.getD i [] := by
  unfold mergePiece
  exact foldl_invariant (fun acc : Board => acc.getD i [] = b.getD i []) _ _ _
    rfl fun (acc : Board) (sy : Nat) hsy hacc =>
      foldl_invariant (fun acc2 : Board => acc2.getD i [] = b.getD i []) _ _ _
        hacc fun (acc2 : Board) (sx : Nat) _ hacc2 => by
          have hsy' : sy < (shapeAt p rot).length := List.mem_range.mp hsy
          dsimp only
          split
          · split
            · have hne : (i : Int) ≠ y + sy := by omega
              rw [getD_setCell_ne _ _ _ _ _ hne]
              exact hacc2
            · exact hacc2
          · exact hacc2

theorem countP_add_countP_not (p : BoardRow → Bool) (l : Board) :
    l.countP p + l.countP (fun r => !p r) = l.length := by
  induction l with
  | nil => rfl
  | cons a l ih =>
    rw [List.countP_cons, List.countP_cons]
    by_cases h : p a = true <;> simp [h] <;> omega

theorem countP_le_of_agree_outside (p : BoardRow → Bool) (b b' : Board)
    (hlen : b'.length = b.length) (lo : Int) (len : Nat)
    (hout : ∀ i : Nat, ((i : Int) < lo ∨ lo + len ≤ (i : Int)) →
      b'.getD i [] = b.getD i [])
    (hb : ∀ r ∈ b, p r = false) :
    b'.countP p ≤ len := by
  set a := lo.toNat with ha
  set c := (lo + len).toNat with hc
  have hac : a ≤ c := by omega
  have heq : ∀ (i : Nat) (hi2 : i < b'.length) (hib : i < b.length),
      ((i : Int) < lo ∨ lo + len ≤ (i : Int)) → b'[i] = b[i] := by
    intro i hi2 hib hside
    have h3 := hout i hside
    rwa [List.getD_eq_getElem?_getD, List.getD_eq_getElem?_getD,
      List.getElem?_eq_getElem hi2, List.getElem?_eq_getElem hib,
      Option.getD_some, Option.getD_some] at h3
  have eq1 : b'.take a = b.take a := by
    apply List.ext_getElem
    · simp [hlen]
    · intro i h1 h2
      simp only [List.length_take] at h1
      rw [List.getElem_take, List.getElem_take]
      exact heq i (by omega) (by omega) (Or.inl (by omega))
  have eq2 : b'.drop c = b.drop c := by
    apply List.ext_getElem
    · simp [hlen]
    · intro i h1 h2
      simp only [List.length_drop] at h1
      rw [List.getElem_drop, List.getElem_drop]
      exact heq (c + i) (by omega) (by omega) (Or.inr (by omega))
  have hsplit : b' = b'.take a ++ ((b'.drop a).take (c - a) ++ b'.drop c) := by
    conv_lhs => rw [← List.take_append_drop a b']
    congr 1
    conv_lhs => rw [← List.take_append_drop (c - a) (b'.drop a)]
    congr 1
    rw [List.drop_drop]
    congr 1
    omega
  have hcount : b'.countP p =
      (b'.take a).countP p + (((b'.drop a).take (c - a)).countP p +
        (b'.drop c).countP p) := by
    conv_lhs => rw [hsplit]
    rw [List.countP_append, List.countP_append]
  have h1 : (b'.take a).countP p = 0 := by
    rw [eq1, List.countP_eq_zero]
    intro r hr
    simp [hb r (List.take_subset a b hr)]
  have h2 : (b'.drop c).countP p = 0 := by
    rw [eq2, List.countP_eq_zero]
    intro r hr
    simp [hb r (List.drop_subset c b hr)]
  have h3 : ((b'.drop a).take (c - a)).countP p ≤ c - a := by
    calc ((b'.drop a).take (c - a)).countP p
        ≤ ((b'.drop a).take (c - a)).length := List.countP_le_length p
      _ ≤ c - a := by simp [List.length_take]
  omega

theorem rowComplete_emptyRow : rowComplete emptyRow = false := by decide

/-- The clear-scan loop removes exactly the complete rows and unshifts that
many empty rows at the top, provided the fuel covers the remaining
iterations and all rows before the scan index are incomplete. -/
theorem clearLoop_spec (fuel : Nat) :
    ∀ (y c : Nat) (b : Board), b.length = 20 → y ≤ 20 →
      (∀ i, i < y → rowComplete (b.getD i []) = false) →
      21 - y + b.countP rowComplete ≤ fuel →
      clearLoop fuel b y c =
        (List.replicate (b.countP rowComplete) emptyRow ++
          b.filter (fun r => !rowComplete r),
         c + b.countP rowComplete) := by
  induction fuel with
  | zero => intro y c b _ hy _ hfuel; omega
  | succ fuel ih =>
    intro y c b hlen hy hbef hfuel
    by_cases hy20 : y < 20
    · by_cases hcomp : rowComplete (b.getD y []) = true
      · have hylen : y < b.length := by omega
        have hrow : b.getD y [] = b[y] := by
          simp [List.getElem?_eq_getElem hylen]
        have hdecomp : b = b.take y ++ b[y] :: b.drop (y + 1) := by
          conv_lhs => rw [← List.take_append_drop y b]
          rw [List.drop_eq_getElem_cons hylen]
        have herase : b.eraseIdx y = b.take y ++ b.drop (y + 1) :=
          List.eraseIdx_eq_take_drop_succ b y
        have hcompY : rowComplete b[y] = true := hrow ▸ hcomp
        have hcount : b.countP rowComplete =
            (b.take y).countP rowComplete +
              (b.drop (y + 1)).countP rowComplete + 1 := by
          conv_lhs => rw [hdecomp]
          rw [List.countP_append, List.countP_cons, hcompY]
          simp only [if_true]
          omega
        have hcount' : (emptyRow :: b.eraseIdx y).countP rowComplete =
            b.countP rowComplete - 1 := by
          rw [List.countP_cons, herase, List.countP_append,
            rowComplete_emptyRow]
          simp [hcount]
        have hfilter' : (emptyRow :: b.eraseIdx y).filter
            (fun r => !rowComplete r) =
            emptyRow :: b.filter (fun r => !rowComplete r) := by
          rw [List.filter_cons, herase, List.filter_append]
          conv_rhs => rw [hdecomp]
          rw [List.filter_append, List.filter_cons, hcompY]
          simp [rowComplete_emptyRow]
        have hlen' : (emptyRow :: b.eraseIdx y).length = 20 := by
          simp [herase, List.length_take, List.length_drop]
          omega
        have hbef' : ∀ i, i < y →
            rowComplete ((emptyRow :: b.eraseIdx y).getD i []) = false := by
          intro i hi
          match i with
          | 0 => simpa using rowComplete_emptyRow
          | j + 1 =>
            have hj : j < y := by omega
            have hgd : (b.eraseIdx y).getD j [] = b.getD j [] := by
              rw [herase, List.getD_eq_getElem?_getD, List.getD_eq_getElem?_getD,
                List.getElem?_append_left
                  (by simp [List.length_take]; omega),
                List.getElem?_take_of_lt hj]
            simp only [List.getD_cons_succ]
            rw [hgd]
            exact hbef j (by omega)
        have hstep : clearLoop (fuel + 1) b y c =
            clearLoop fuel (emptyRow :: b.eraseIdx y) y (c + 1) := by
          simp only [clearLoop]
          rw [if_pos hy20, if_pos hcomp]
        rw [hstep, ih y (c + 1) _ hlen' hy hbef' (by omega), hcount', hfilter']
        obtain ⟨k', hkk⟩ : ∃ k', b.countP rowComplete = k' + 1 :=
          ⟨b.countP rowComplete - 1, by omega⟩
        rw [hkk]
        simp [List.replicate_succ']
        omega
      · rw [Bool.not_eq_true] at hcomp
        have hstep : clearLoop (fuel + 1) b y c = clearLoop fuel b (y + 1) c := by
          simp only [clearLoop]
          rw [if_pos hy20, if_neg (by rw [hcomp]; decide)]
        rw [hstep]
        exact ih (y + 1) c b hlen (by omega)
          (fun i hi => by
            rcases Nat.lt_succ_iff_lt_or_eq.mp hi with h | h
            · exact hbef i h
            · subst h; exact hcomp)
          (by omega)
    · have hall : ∀ r ∈ b, rowComplete r = false := by
        intro r hr
        obtain ⟨i, hi, rfl⟩ := List.mem_iff_getElem.mp hr
        have hg : b.getD i [] = b[i] := by
          simp [List.getElem?_eq_getElem hi]
        rw [← hg]
        exact hbef i (by omega)
      have hk0 : b.countP rowComplete = 0 :=
        List.countP_eq_zero.mpr fun r hr => by simp [hall r hr]
      have hfil : b.filter (fun r => !rowComplete r) = b :=
        List.filter_eq_self.mpr fun r hr => by simp [hall r hr]
      have hstep : clearLoop (fuel + 1) b y c = (b, c) := by
        simp only [clearLoop]
        rw [if_neg hy20]
      rw [hstep, hk0, hfil]
      simp

/-- The full clear scan of a 20-row board: the complete rows are removed,
as many empty rows appear at the top, and the count is the number of
complete rows. -/
theorem clearScan_spec (b : Board) (hlen : b.length = 20) :
    clearScan b =
      (List.replicate (b.countP rowComplete) emptyRow ++
        b.filter (fun r => !rowComplete r),
       b.countP rowComplete) := by
  have hk : b.countP rowComplete ≤ 20 := hlen ▸ List.countP_le_length _
  have := clearLoop_spec 41 0 0 b hlen (by omega) (by omega) (by omega)
  simpa [clearScan] using this

theorem validShapes_TETROMINOS : ∀ p ∈ TETROMINOS, validShapes p = true := by
  decide

theorem shapeAt_length_le (p : Tetromino) (hv : validShapes p = true)
    (rot : Nat) : (shapeAt p rot).length ≤ 4 := by
  unfold shapeAt
  by_cases h : rot < p.shape.length
  · have hm : p.shape.getD rot [] = p.shape[rot] := by
      simp [List.getElem?_eq_getElem h]
    rw [hm]
    have := List.all_eq_true.mp hv _ (List.getElem_mem h)
    simpa using this
  · rw [List.getD_eq_getElem?_getD, List.getElem?_eq_none (by omega)]
    simp

/-- The number of rows the clear scan removes after merging: at most the
height of the merged mask, when the pre-merge board had no complete row. -/
theorem countP_mergePiece_le (b : Board) (p : Tetromino) (x y : Int)
    (rot : Nat) (hb : ∀ r ∈ b, rowComplete r = false) :
    (mergePiece b p x y rot).countP rowComplete ≤ (shapeAt p rot).length :=
  countP_le_of_agree_outside rowComplete b _ (length_mergePiece b p x y rot)
    y (shapeAt p rot).length
    (fun i hi => getD_mergePiece_outside b p x y rot i hi) hb

/-! ### A canonical form for the lock sequence -/

theorem updateBoard_eq (draw : Tetromino) (s : GameState) (cur next : Tetromino)
    (hc : s.currentPiece = some cur) (hn : s.nextPiece = some next) :
    updateBoard draw s = lockStep draw s cur next := by
  unfold updateBoard lockStep
  rw [hc, hn]
  rfl

/-! ### The session invariant -/

theorem lockCleared_eq (s : GameState) (cur : Tetromino)
    (hlen : s.board.length = 20) :
    lockCleared s cur =
      (mergePiece s.board cur s.position.x s.position.y s.rotation).countP
        rowComplete := by
  unfold lockCleared
  rw [clearScan_spec _ ((length_mergePiece _ _ _ _ _).trans hlen)]

theorem lockBoard_eq (s : GameState) (cur : Tetromino)
    (hlen : s.board.length = 20) :
    lockBoard s cur =
      List.replicate
        ((mergePiece s.board cur s.position.x s.position.y s.rotation).countP
          rowComplete) emptyRow ++
        (mergePiece s.board cur s.position.x s.position.y s.rotation).filter
          (fun r => !rowComplete r) := by
  unfold lockBoard
  rw [clearScan_spec _ ((length_mergePiece _ _ _ _ _).trans hlen)]

theorem length_lockBoard (s : GameState) (cur : Tetromino)
    (hlen : s.board.length = 20) : (lockBoard s cur).length = 20 := by
  rw [lockBoard_eq s cur hlen]
  have hsum := countP_add_countP_not rowComplete
    (mergePiece s.board cur s.position.x s.position.y s.rotation)
  have hml : (mergePiece s.board cur s.position.x s.position.y
      s.rotation).length = 20 := (length_mergePiece _ _ _ _ _).trans hlen
  rw [List.length_append, List.length_replicate,
    ← List.countP_eq_length_filter]
  omega

theorem rows_lockBoard (s : GameState) (cur : Tetromino)
    (hlen : s.board.length = 20) (hrows : ∀ r ∈ s.board, r.length = 10) :
    ∀ r ∈ lockBoard s cur, r.length = 10 := by
  rw [lockBoard_eq s cur hlen]
  intro r hr
  rcases List.mem_append.mp hr with hr' | hr'
  · rw [List.eq_of_mem_replicate hr']
    simp [emptyRow]
  · exact rows_mergePiece s.board cur s.position.x s.position.y s.rotation
      hrows r (List.mem_filter.mp hr').1

theorem noComplete_lockBoard (s : GameState) (cur : Tetromino)
    (hlen : s.board.length = 20) :
    ∀ r ∈ lockBoard s cur, rowComplete r = false := by
  rw [lockBoard_eq s cur hlen]
  intro r hr
  rcases List.mem_append.mp hr with hr' | hr'
  · rw [List.eq_of_mem_replicate hr']
    exact rowComplete_emptyRow
  · have := (List.mem_filter.mp hr').2
    simpa using this

theorem lockCleared_le (s : GameState) (cur : Tetromino)
    (hlen : s.board.length = 20) (hv : validShapes cur = true)
    (hnc : ∀ r ∈ s.board, rowComplete r = false) :
    lockCleared s cur ≤ 4 := by
  rw [lockCleared_eq s cur hlen]
  exact (countP_mergePiece_le s.board cur s.position.x s.position.y
    s.rotation hnc).trans (shapeAt_length_le cur hv s.rotation)

theorem inv_startGame (p1 p2 : Tetromino) (h1 : p1 ∈ TETROMINOS)
    (h2 : p2 ∈ TETROMINOS) : Inv (startGame p1 p2) := by
  refine ⟨rfl, by show (0 : Nat) = 0 / 10; decide,
    by show createEmptyBoard.length = 20; decide, ?_, ?_,
    ⟨p1, h1, rfl⟩, ⟨p2, h2, rfl⟩, ?_, ?_⟩
  · intro r hr
    rw [List.eq_of_mem_replicate hr]
    simp [emptyRow]
  · intro r hr
    rw [List.eq_of_mem_replicate hr]
    exact rowComplete_emptyRow
  · intro _
    show some (1000 : ℚ) = some (1000 * (4/5 : ℚ) ^ (0 : Nat))
    norm_num
  · intro hx
    simp [startGame] at hx

theorem inv_movePiece (dir : Int) (s : GameState) (h : Inv s) :
    Inv (movePiece dir s) := by
  unfold movePiece
  cases hc : s.currentPiece with
  | none => exact h
  | some cur =>
    dsimp only
    split
    · exact ⟨h.started, h.level_eq, h.blen, h.brows, h.nocomp,
        hc ▸ h.curMem, h.nxtMem, h.dropRun, h.dropOver⟩
    · exact h

theorem inv_rotatePiece (s : GameState) (h : Inv s) :
    Inv (rotatePiece s) := by
  unfold rotatePiece
  cases hc : s.currentPiece with
  | none => exact h
  | some cur =>
    dsimp only
    split
    · split
      · exact ⟨h.started, h.level_eq, h.blen, h.brows, h.nocomp,
          hc ▸ h.curMem, h.nxtMem, h.dropRun, h.dropOver⟩
      · exact h
    · exact h

theorem inv_updateBoard (draw : Tetromino) (s : GameState)
    (hd : draw ∈ TETROMINOS) (h : Inv s) (hgo : s.gameOver = false) :
    Inv (updateBoard draw s) := by
  obtain ⟨cur, hcm, hc⟩ := h.curMem
  obtain ⟨next, hnm, hn⟩ := h.nxtMem
  rw [updateBoard_eq draw s cur next hc hn]
  unfold lockStep
  have hv : validShapes cur = true := validShapes_TETROMINOS cur hcm
  have hcl4 : lockCleared s cur ≤ 4 := lockCleared_le s cur h.blen hv h.nocomp
  have hlb := length_lockBoard s cur h.blen
  have hlr := rows_lockBoard s cur h.blen h.brows
  have hlc := noComplete_lockBoard s cur h.blen
  have hlev : lockLevel s cur = lockRows s cur / 10 := by
    unfold lockLevel lockRows
    have hle := h.level_eq
    by_cases h0 : 0 < lockCleared s cur
    · by_cases h1 : s.rows / 10 < (s.rows + lockCleared s cur) / 10
      · rw [if_pos ⟨h0, h1⟩, if_pos h0]
        omega
      · rw [if_neg (by tauto), if_pos h0]
        omega
    · rw [if_neg (by tauto), if_neg h0]
      exact hle
  have hdt : lockDropTime s cur =
      some (1000 * (4/5 : ℚ) ^ (lockLevel s cur)) := by
    unfold lockDropTime lockLevel
    by_cases hb : 0 < lockCleared s cur ∧
        s.rows / 10 < (s.rows + lockCleared s cur) / 10
    · rw [if_pos hb, if_pos hb]
      have hexp : (s.rows + lockCleared s cur) / 10 = s.level + 1 := by
        have hle := h.level_eq
        omega
      rw [hexp]
    · rw [if_neg hb, if_neg hb]
      exact h.dropRun hgo
  split
  · exact ⟨h.started, hlev, hlb, hlr, hlc, ⟨next, hnm, rfl⟩,
      ⟨draw, hd, rfl⟩, fun hx => by simp at hx, fun _ => rfl⟩
  · exact ⟨h.started, hlev, hlb, hlr, hlc, ⟨next, hnm, rfl⟩,
      ⟨draw, hd, rfl⟩, fun _ => hdt, fun hx => absurd (hgo ▸ hx) (by simp)⟩

theorem inv_dropPiece (draw : Tetromino) (s : GameState)
    (hd : draw ∈ TETROMINOS) (h : Inv s) : Inv (dropPiece draw s) := by
  unfold dropPiece
  cases hc : s.currentPiece with
  | none => exact h
  | some cur =>
    dsimp only
    split
    · next hcond =>
      split
      · exact ⟨h.started, h.level_eq, h.blen, h.brows, h.nocomp,
          hc ▸ h.curMem, h.nxtMem, h.dropRun, h.dropOver⟩
      · exact inv_updateBoard draw s hd h hcond.1
    · exact h

theorem inv_dropPieceToBottom (draw : Tetromino) (s : GameState)
    (hd : draw ∈ TETROMINOS) (h : Inv s) : Inv (dropPieceToBottom draw s) := by
  unfold dropPieceToBottom
  cases hc : s.currentPiece with
  | none => exact h
  | some cur =>
    dsimp only
    split
    · next hcond => exact inv_updateBoard draw s hd h hcond.1
    · exact h

/-- Every reachable session state satisfies the invariant. -/
theorem inv_of_reachable (s : GameState) (h : Reachable s) : Inv s := by
  induction h with
  | start p1 p2 h1 h2 => exact inv_startGame p1 p2 h1 h2
  | move dir s hs ih => exact inv_movePiece dir s ih
  | rotate s hs ih => exact inv_rotatePiece s ih
  | drop d s hd hs ih => exact inv_dropPiece d s hd ih
  | hard d s hd hs ih => exact inv_dropPieceToBottom d s hd ih


/-! ### Claim theorems -/

/-- C2: the clear scan of every lock sequence scans rows top to bottom,
removes each row whose 10 cells are all occupied, unshifts a fresh empty
row at the top (shifting the rows above the removal down by one) and
re-examines the same index; net effect on a 20-row board: the result is
`countP rowComplete b` empty rows on top of the incomplete rows of `b` in
order, and `cleared` is exactly the number of complete rows removed. -/
theorem clearScan_removes_exactly_complete_rows (b : Board)
    (hlen : b.length = 20) :
    clearScan b =
      (List.replicate (b.countP rowComplete) emptyRow ++
        b.filter (fun r => !rowComplete r),
       b.countP rowComplete) :=
  clearScan_spec b hlen

theorem clearScan_removes_exactly_complete_rows_witness :
    demoBoard19.length = 20 ∧
    clearScan demoBoard19 =
      (List.replicate (demoBoard19.countP rowComplete) emptyRow ++
        demoBoard19.filter (fun r => !rowComplete r),
       demoBoard19.countP rowComplete) :=
  ⟨by decide, clearScan_removes_exactly_complete_rows demoBoard19 (by decide)⟩

/-- C3: after any complete lock sequence (merge followed by the clear
scan) on a 20-row board, no row of the resulting board is fully
occupied. -/
theorem lock_no_complete_row (b : Board) (p : Tetromino) (x y : Int)
    (rot : Nat) (hlen : b.length = 20) :
    ∀ r ∈ (clearScan (mergePiece b p x y rot)).1, rowComplete r = false := by
  have hm : (mergePiece b p x y rot).length = 20 :=
    (length_mergePiece _ _ _ _ _).trans hlen
  rw [clearScan_spec _ hm]
  intro r hr
  rcases List.mem_append.mp hr with hr' | hr'
  · rw [List.eq_of_mem_replicate hr']
    exact rowComplete_emptyRow
  · simpa using (List.mem_filter.mp hr').2

theorem lock_no_complete_row_witness :
    demoBoard19.length = 20 ∧
    rowComplete emptyRow = false :=
  ⟨by decide,
   lock_no_complete_row demoBoard19 pieceI (-2) 16 1 (by decide) emptyRow
     (by decide)⟩

/-- C10: if a placement does not collide, then every occupied cell of its
mask maps to an in-bounds board position: `0 ≤ boardX < 10` and
`boardY < 20` (the merge loop itself checks only `boardY ≥ 0`). -/
theorem merge_writes_in_bounds (board : Board) (p : Tetromino)
    (posX posY : Int) (rot : Nat)
    (h : checkCollision board p posX posY rot = false) :
    ∀ sy sx : Nat, ((shapeAt p rot).getD sy []).getD sx 0 ≠ 0 →
      0 ≤ posX + (sx : Int) ∧ posX + (sx : Int) < 10 ∧
        posY + (sy : Int) < 20 := by
  intro sy sx hcell
  have hsy : sy < (shapeAt p rot).length := by
    by_contra hx
    have hnil : (shapeAt p rot).getD sy [] = [] := by
      rw [List.getD_eq_getElem?_getD, List.getElem?_eq_none (by omega)]
      rfl
    rw [hnil] at hcell
    simp at hcell
  have hsx : sx < ((shapeAt p rot).getD sy []).length := by
    by_contra hx
    rw [List.getD_eq_getElem?_getD, List.getElem?_eq_none (by omega)] at hcell
    simp at hcell
  unfold checkCollision at h
  simp only [List.any_eq_false, Bool.not_eq_true, List.mem_range] at h
  have h2 := h sy hsy sx hsx
  simp only [Bool.and_eq_false_iff, Bool.or_eq_false_iff,
    decide_eq_false_iff_not, not_lt, not_le] at h2
  rcases h2 with hbad | hrest
  · exact absurd hcell hbad
  · refine ⟨?_, ?_, ?_⟩ <;> omega

theorem merge_writes_in_bounds_witness :
    checkCollision createEmptyBoard pieceO 4 18 0 = false ∧
    ((0 : Int) ≤ 4 + ((0 : Nat) : Int) ∧ 4 + ((0 : Nat) : Int) < 10 ∧
      18 + ((0 : Nat) : Int) < 20) :=
  ⟨by decide,
   merge_writes_in_bounds createEmptyBoard pieceO 4 18 0 (by decide) 0 0
     (by decide)⟩


/-- C4: in a lock sequence on a valid board, at most 4 rows clear; with
`cleared > 0` the score grows by exactly
`base(cleared clamped to 4) * (level + 1)` for the pre-lock level and the
row count grows by `cleared`; with `cleared = 0` both are unchanged; the
score never decreases and strictly increases exactly when `cleared > 0`. -/
theorem lock_scoring (draw : Tetromino) (s : GameState) (cur next : Tetromino)
    (hc : s.currentPiece = some cur) (hn : s.nextPiece = some next)
    (hlen : s.board.length = 20) (hv : validShapes cur = true)
    (hnc : ∀ r ∈ s.board, rowComplete r = false) :
    lockCleared s cur ≤ 4 ∧
    (0 < lockCleared s cur →
      (updateBoard draw s).score =
        s.score + basePoints (min (lockCleared s cur) 4) * (s.level + 1) ∧
      (updateBoard draw s).rows = s.rows + lockCleared s cur) ∧
    (lockCleared s cur = 0 →
      (updateBoard draw s).score = s.score ∧
      (updateBoard draw s).rows = s.rows) ∧
    s.score ≤ (updateBoard draw s).score ∧
    (s.score < (updateBoard draw s).score ↔ 0 < lockCleared s cur) := by
  have hcl4 := lockCleared_le s cur hlen hv hnc
  have hmin : min (lockCleared s cur) 4 = lockCleared s cur := by omega
  have h1 : 0 < lockCleared s cur →
      lockScore s cur =
        s.score + basePoints (min (lockCleared s cur) 4) * (s.level + 1) ∧
      lockRows s cur = s.rows + lockCleared s cur := by
    intro h0
    rw [hmin]
    unfold lockScore lockRows
    rw [if_pos h0, if_pos h0]
    exact ⟨rfl, rfl⟩
  have h2 : lockCleared s cur = 0 →
      lockScore s cur = s.score ∧ lockRows s cur = s.rows := by
    intro h0
    unfold lockScore lockRows
    rw [if_neg (by omega), if_neg (by omega)]
    exact ⟨rfl, rfl⟩
  have hbp : 0 < lockCleared s cur →
      0 < basePoints (lockCleared s cur) * (s.level + 1) := by
    intro h0
    have hcase : lockCleared s cur = 1 ∨ lockCleared s cur = 2 ∨
        lockCleared s cur = 3 ∨ lockCleared s cur = 4 := by omega
    have hpos : 0 < basePoints (lockCleared s cur) := by
      rcases hcase with hq | hq | hq | hq <;> rw [hq] <;> decide
    exact Nat.mul_pos hpos (Nat.succ_pos _)
  have h3 : s.score ≤ lockScore s cur := by
    unfold lockScore
    split <;> omega
  have h4 : s.score < lockScore s cur ↔ 0 < lockCleared s cur := by
    unfold lockScore
    by_cases h0 : 0 < lockCleared s cur
    · rw [if_pos h0]
      have := hbp h0
      constructor
      · intro _; exact h0
      · intro _; omega
    · rw [if_neg h0]
      exact iff_of_false (lt_irrefl s.score) h0
  rw [updateBoard_eq draw s cur next hc hn]
  unfold lockStep
  split
  · exact ⟨hcl4, h1, h2, h3, h4⟩
  · exact ⟨hcl4, h1, h2, h3, h4⟩

theorem lock_scoring_witness :
    (updateBoard pieceJ demoLockState).score =
      demoLockState.score +
        basePoints (min (lockCleared demoLockState pieceI) 4) *
          (demoLockState.level + 1) ∧
    (updateBoard pieceJ demoLockState).rows =
      demoLockState.rows + lockCleared demoLockState pieceI :=
  (lock_scoring pieceJ demoLockState pieceI pieceT rfl rfl (by decide)
    (by decide) (by decide)).2.1 (by decide)

/-- C5: in every reachable session state — after `startGame` and after any
sequence of moves, rotates, drops, hard drops and ticks — the level equals
`⌊rows / 10⌋`, although the implementation only ever increments it by 1. -/
theorem level_eq_rows_div_ten (s : GameState) (h : Reachable s) :
    s.level = s.rows / 10 :=
  (inv_of_reachable s h).level_eq

theorem level_eq_rows_div_ten_witness :
    (dropPieceToBottom pieceL (startGame pieceI pieceJ)).level =
      (dropPieceToBottom pieceL (startGame pieceI pieceJ)).rows / 10 :=
  level_eq_rows_div_ten _
    (Reachable.hard pieceL _ (by decide)
      (Reachable.start pieceI pieceJ (by decide) (by decide)))

/-- C6: in every reachable session state the drop interval is absent
exactly when the game-over flag is set, and while the session is running it
equals the initial constant 1000 times `0.8 ^ level` (modelled exactly as
`1000 * (4/5) ^ level`). -/
theorem dropTime_invariant (s : GameState) (h : Reachable s) :
    (s.dropTime = none ↔ s.gameOver = true) ∧
    (s.gameOver = false →
      s.dropTime = some (1000 * (4/5 : ℚ) ^ s.level)) := by
  have hi := inv_of_reachable s h
  refine ⟨⟨?_, hi.dropOver⟩, hi.dropRun⟩
  intro hx
  by_cases hg : s.gameOver = true
  · exact hg
  · rw [Bool.not_eq_true] at hg
    rw [hi.dropRun hg] at hx
    exact Option.noConfusion hx

theorem dropTime_invariant_witness :
    (startGame pieceI pieceJ).dropTime =
      some (1000 * (4/5 : ℚ) ^ (startGame pieceI pieceJ).level) :=
  (dropTime_invariant _
    (Reachable.start pieceI pieceJ (by decide) (by decide))).2 rfl

/-- C7: every lock sequence ends by promoting the on-deck piece with
rotation 0, anchor `y = 0` and anchor
`x = ⌊(10 - width of its rotation-0 shape) / 2⌋`; if that spawn placement
collides with the post-clear board the game-over flag is set and the drop
interval becomes absent, otherwise the session stays running. -/
theorem lock_spawn (draw : Tetromino) (s : GameState) (cur next : Tetromino)
    (hc : s.currentPiece = some cur) (hn : s.nextPiece = some next)
    (hnm : next ∈ TETROMINOS) (hgo : s.gameOver = false) :
    (updateBoard draw s).currentPiece = some next ∧
    (updateBoard draw s).rotation = 0 ∧
    (updateBoard draw s).position.y = 0 ∧
    (updateBoard draw s).position.x =
      Int.fdiv (10 - (rot0Width next : Int)) 2 ∧
    (checkCollision (lockBoard s cur) next (spawnX next) 0 0 = true →
      (updateBoard draw s).gameOver = true ∧
      (updateBoard draw s).dropTime = none) ∧
    (checkCollision (lockBoard s cur) next (spawnX next) 0 0 = false →
      (updateBoard draw s).gameOver = false) := by
  have hsq : spawnX next = Int.fdiv (10 - (rot0Width next : Int)) 2 := by
    fin_cases hnm <;> decide
  rw [updateBoard_eq draw s cur next hc hn]
  unfold lockStep
  split
  · next hcol =>
    refine ⟨rfl, rfl, rfl, hsq, fun _ => ⟨rfl, rfl⟩, fun hx => ?_⟩
    rw [hcol] at hx
    exact Bool.noConfusion hx
  · next hcol =>
    rw [Bool.not_eq_true] at hcol
    refine ⟨rfl, rfl, rfl, hsq, fun hx => ?_, fun _ => hgo⟩
    rw [hcol] at hx
    exact Bool.noConfusion hx

theorem lock_spawn_witness :
    (updateBoard pieceJ (startGame pieceO pieceT)).currentPiece =
      some pieceT ∧
    (updateBoard pieceJ (startGame pieceO pieceT)).rotation = 0 ∧
    (updateBoard pieceJ (startGame pieceO pieceT)).position.y = 0 ∧
    (updateBoard pieceJ (startGame pieceO pieceT)).position.x =
      Int.fdiv (10 - (rot0Width pieceT : Int)) 2 := by
  have h := lock_spawn pieceJ (startGame pieceO pieceT) pieceO pieceT rfl rfl
    (by decide) rfl
  exact ⟨h.1, h.2.1, h.2.2.1, h.2.2.2.1⟩


/-- C8: `movePiece` and `rotatePiece` never change board, score, rows,
level, drop interval, current piece, on-deck piece, started or game-over
flags; a successful move changes only the anchor x, a successful rotate
changes only the rotation index, and a colliding candidate leaves the whole
state unchanged. -/
theorem move_rotate_frame (dir : Int) (s : GameState) :
    (movePiece dir s).board = s.board ∧
    (movePiece dir s).score = s.score ∧
    (movePiece dir s).rows = s.rows ∧
    (movePiece dir s).level = s.level ∧
    (movePiece dir s).dropTime = s.dropTime ∧
    (movePiece dir s).currentPiece = s.currentPiece ∧
    (movePiece dir s).nextPiece = s.nextPiece ∧
    (movePiece dir s).position.y = s.position.y ∧
    (movePiece dir s).rotation = s.rotation ∧
    (movePiece dir s).gameStarted = s.gameStarted ∧
    (movePiece dir s).gameOver = s.gameOver ∧
    (rotatePiece s).board = s.board ∧
    (rotatePiece s).score = s.score ∧
    (rotatePiece s).rows = s.rows ∧
    (rotatePiece s).level = s.level ∧
    (rotatePiece s).dropTime = s.dropTime ∧
    (rotatePiece s).currentPiece = s.currentPiece ∧
    (rotatePiece s).nextPiece = s.nextPiece ∧
    (rotatePiece s).position = s.position ∧
    (rotatePiece s).gameStarted = s.gameStarted ∧
    (rotatePiece s).gameOver = s.gameOver ∧
    (∀ cur, s.currentPiece = some cur →
      checkCollision s.board cur (s.position.x + dir) s.position.y
        s.rotation = true → movePiece dir s = s) ∧
    (∀ cur, s.currentPiece = some cur →
      checkCollision s.board cur s.position.x s.position.y
        ((s.rotation + 1) % 4) = true → rotatePiece s = s) := by
  have hmovec : ∀ cur, s.currentPiece = some cur →
      checkCollision s.board cur (s.position.x + dir) s.position.y
        s.rotation = true → movePiece dir s = s := by
    intro cur hc hcol
    unfold movePiece
    rw [hc]
    dsimp only
    rw [if_neg fun hx => by rw [hcol] at hx; exact Bool.noConfusion hx.2.2]
  have hrotc : ∀ cur, s.currentPiece = some cur →
      checkCollision s.board cur s.position.x s.position.y
        ((s.rotation + 1) % 4) = true → rotatePiece s = s := by
    intro cur hc hcol
    unfold rotatePiece
    rw [hc]
    dsimp only
    split
    · rw [if_neg fun hx => by rw [hcol] at hx; exact Bool.noConfusion hx]
    · rfl
  have hmove : movePiece dir s = s ∨
      movePiece dir s = { s with position := ⟨s.position.x + dir,
        s.position.y⟩ } := by
    unfold movePiece
    cases s.currentPiece
    · exact Or.inl rfl
    · dsimp only
      split
      · exact Or.inr rfl
      · exact Or.inl rfl
  have hrot : rotatePiece s = s ∨
      rotatePiece s = { s with rotation := (s.rotation + 1) % 4 } := by
    unfold rotatePiece
    cases s.currentPiece
    · exact Or.inl rfl
    · dsimp only
      split
      · split
        · exact Or.inr rfl
        · exact Or.inl rfl
      · exact Or.inl rfl
  refine ⟨?_, ?_, ?_, ?_, ?_, ?_, ?_, ?_, ?_, ?_, ?_, ?_, ?_, ?_, ?_, ?_,
    ?_, ?_, ?_, ?_, ?_, hmovec, hrotc⟩ <;>
    first
      | (rcases hmove with hm | hm <;> rw [hm])
      | (rcases hrot with hr | hr <;> rw [hr])

theorem move_rotate_frame_witness :
    (movePiece 1 (startGame pieceI pieceJ)).score =
      (startGame pieceI pieceJ).score ∧
    (rotatePiece (startGame pieceI pieceJ)).board =
      (startGame pieceI pieceJ).board := by
  obtain ⟨h1, h2, h3, h4, h5, h6, h7, h8, h9, h10, h11, h12, hrest⟩ :=
    move_rotate_frame 1 (startGame pieceI pieceJ)
  exact ⟨h2, h12⟩

/-- C9: when the game-over flag is set, every operation other than
`startGame` — move, rotate, soft drop, tick, hard drop — returns the state
unchanged; game-over is terminal and only `startGame` replaces it. -/
theorem gameOver_rejects_all (s : GameState) (h : s.gameOver = true) :
    ∀ (dir : Int) (d : Tetromino),
      movePiece dir s = s ∧ rotatePiece s = s ∧ dropPiece d s = s ∧
      tick d s = s ∧ dropPieceToBottom d s = s := by
  intro dir d
  have hdp : dropPiece d s = s := by
    unfold dropPiece
    cases s.currentPiece
    · rfl
    · dsimp only
      rw [if_neg fun hx => by rw [h] at hx; exact Bool.noConfusion hx.1]
  refine ⟨?_, ?_, hdp, ?_, ?_⟩
  · unfold movePiece
    cases s.currentPiece
    · rfl
    · dsimp only
      rw [if_neg fun hx => by rw [h] at hx; exact Bool.noConfusion hx.1]
  · unfold rotatePiece
    cases s.currentPiece
    · rfl
    · dsimp only
      rw [if_neg fun hx => by rw [h] at hx; exact Bool.noConfusion hx.1]
  · unfold tick
    exact hdp
  · unfold dropPieceToBottom
    cases s.currentPiece
    · rfl
    · dsimp only
      rw [if_neg fun hx => by rw [h] at hx; exact Bool.noConfusion hx.1]

theorem gameOver_rejects_all_witness :
    movePiece 1 demoOverState = demoOverState ∧
    rotatePiece demoOverState = demoOverState ∧
    dropPiece pieceT demoOverState = demoOverState ∧
    tick pieceT demoOverState = demoOverState ∧
    dropPieceToBottom pieceT demoOverState = demoOverState :=
  gameOver_rejects_all demoOverState rfl 1 pieceT

/-- C1 (code bug): on a fresh board with the O piece hovering at its spawn
anchor (4, 0), the hard-drop while loop correctly computes the resting
anchor y = 18, but the lock sequence then runs with the pre-drop anchor:
`updateBoard` is the memoized closure of the current render, so its
captured `position` is still (4, 0) when it merges.  The board therefore
gains occupied cells in row 0 while row 19 stays empty, and the next spawn
immediately collides, setting game over — instead of the piece locking in
rows 18–19 as the claim requires. -/
theorem hardDrop_locks_at_stale_anchor :
    dropYLoop 40 (startGame pieceO pieceT).board pieceO
      (startGame pieceO pieceT).position.x
      (startGame pieceO pieceT).position.y
      (startGame pieceO pieceT).rotation = 18 ∧
    (cellAt (dropPieceToBottom pieceJ (startGame pieceO pieceT)).board 0 4
      ).isSome = true ∧
    (cellAt (dropPieceToBottom pieceJ (startGame pieceO pieceT)).board 19 4
      ).isSome = false ∧
    (dropPieceToBottom pieceJ (startGame pieceO pieceT)).gameOver = true := by
  decide

end Tytris
